import Mathlib

set_option maxHeartbeats 1000000
set_option linter.unusedSectionVars false
set_option linter.unusedVariables false

/-! Verification development for the MCTS engine of `mcts.py`.

Embedding conventions:
* Python float arithmetic is modeled by exact rational arithmetic (`ℚ`).
  `math.sqrt` and the float power `x ** e` have no rational counterpart, so
  they are abstract function parameters (`sqrtFn`, `powFn`) of the `Oracle`
  record; statements quantify over them.
* The board (a numpy array) is an abstract type `S` with decidable equality.
  The state-key contract makes `np.array2string` injective on states, so the
  string key is identified with the state itself.
* The Python dicts `Qsa`, `Nsa`, `Ns`, `Ps`, `Es` are total functions into
  `Option`, with `none` meaning "key absent".  Reads that the source performs
  on keys it has just guaranteed to be present are written with
  `Option.getD`.
* `game.step` mutates a live environment whose internal configuration the
  engine keeps equal to the board it recurses on, so it is modeled as a pure
  function `step : S → Int → S × Bool` returning the next board and the
  `done` flag (the reward and info components are ignored by the engine).
* `model.predict` is a pure function `predict : S → ℚ × List ℚ`.
* The recursion of `search` carries no termination measure in the source;
  the embedding adds an explicit `fuel : Nat` argument, `none` meaning the
  source would still be recursing after `fuel` nested calls.
* `np.random.choice` is an injected function `choice : List Nat → Nat`.
-/

/-- EPS from `mcts.py` line 6: `EPS = 1e-8`. -/
def EPS : ℚ := 1 / 100000000

/-- Action dimension, fixed in `MCTS.__init__`: `self.action_dim = 6`. -/
def action_dim : Nat := 6

/-- Configuration consumed by `MCTS.__init__`: `numMCTSSim` and `cpuct`. -/
structure Cfg where
  numMCTSSim : Nat
  cpuct : ℚ

/-- External collaborators of the engine: the estimator (`model.predict`),
the environment (`game.step`), the float functions `math.sqrt` and `**`
abstracted over ℚ, and the random choice used by `getActionProb`. -/
structure Oracle (S : Type) where
  predict : S → ℚ × List ℚ
  step : S → Int → S × Bool
  sqrtFn : ℚ → ℚ
  powFn : ℚ → ℚ → ℚ
  choice : List Nat → Nat

/-- The five statistics dicts owned by one `MCTS` instance. -/
structure MCTS (S : Type) where
  Qsa : S → Int → Option ℚ
  Nsa : S → Int → Option Nat
  Ns : S → Option Nat
  Ps : S → Option (List ℚ)
  Es : S → Option Bool

/-- The state of a freshly constructed `MCTS` instance: all dicts empty. -/
def initTree {S : Type} : MCTS S :=
  ⟨fun _ _ => none, fun _ _ => none, fun _ => none, fun _ => none, fun _ => none⟩

/-- Dict update `d[x] = b` for a state-keyed dict. -/
def setE {α β : Type} [DecidableEq α] (f : α → Option β) (x : α) (b : β) :
    α → Option β :=
  fun y => if y = x then some b else f y

/-- Dict update `d[(s, a)] = b` for an edge-keyed dict. -/
def setSA {S β : Type} [DecidableEq S] (f : S → Int → Option β) (s : S) (a : Int)
    (b : β) : S → Int → Option β :=
  fun s' a' => if s' = s ∧ a' = a then some b else f s' a'

section Engine

variable {S : Type} [DecidableEq S]

/-- Lines 96-97 of `mcts.py`: `if s not in self.Es: self.Es[s] = game_ended`. -/
def recordEs (st : MCTS S) (b : S) (e : Bool) : MCTS S :=
  match st.Es b with
  | none => { st with Es := setE st.Es b e }
  | some _ => st

/-- Lines 104-108: leaf expansion.  `v, self.Ps[s] = self.model.predict(...)`,
`self.Ns[s] = 0`. -/
def expandLeaf (o : Oracle S) (st : MCTS S) (b : S) : MCTS S :=
  { st with Ps := setE st.Ps b (o.predict b).2, Ns := setE st.Ns b 0 }

/-- Lines 133-141: the backup step after the recursive call returned `v`. -/
def applyBackup (st : MCTS S) (s : S) (a : Int) (v : ℚ) : MCTS S :=
  match st.Qsa s a with
  | some q =>
      let n : Nat := (st.Nsa s a).getD 0
      { st with
        Qsa := setSA st.Qsa s a (((n : ℚ) * q + v) / ((n : ℚ) + 1)),
        Nsa := setSA st.Nsa s a (n + 1),
        Ns := setE st.Ns s ((st.Ns s).getD 0 + 1) }
  | none =>
      { st with
        Qsa := setSA st.Qsa s a v,
        Nsa := setSA st.Nsa s a 1,
        Ns := setE st.Ns s ((st.Ns s).getD 0 + 1) }

/-- Lines 116-120: the upper confidence bound `u` of action `a` at state `s`. -/
def uVal (cfg : Cfg) (o : Oracle S) (st : MCTS S) (s : S) (a : Nat) : ℚ :=
  match st.Qsa s (a : Int) with
  | some q =>
      q + cfg.cpuct * (((st.Ps s).getD []).getD a 0) *
          o.sqrtFn (((st.Ns s).getD 0 : ℚ)) / (1 + (((st.Nsa s (a : Int)).getD 0 : ℚ)))
  | none =>
      cfg.cpuct * (((st.Ps s).getD []).getD a 0) *
        o.sqrtFn (((st.Ns s).getD 0 : ℚ) + EPS)

/-- One iteration of the selection loop body (lines 115-124): keep the running
best if the candidate does not strictly exceed it. `cur_best` starts as
`-float('inf')`, modeled as `⊥ : WithBot ℚ`. -/
def selStep (u : Nat → ℚ) (cb : WithBot ℚ × Int) (a : Nat) : WithBot ℚ × Int :=
  if cb.1 < (u a : WithBot ℚ) then ((u a : ℚ), (a : Int)) else cb

/-- The selection loop as a fold over the action indices. -/
def selFold (u : Nat → ℚ) (init : WithBot ℚ × Int) (l : List Nat) : WithBot ℚ × Int :=
  l.foldl (selStep u) init

/-- Lines 111-126: the selected action `best_act`, starting from
`cur_best = -float('inf')` and `best_act = -1`. -/
def selectAct (cfg : Cfg) (o : Oracle S) (st : MCTS S) (s : S) : Int :=
  (selFold (uVal cfg o st s) ((⊥ : WithBot ℚ), (-1 : Int)) (List.range action_dim)).2

/-- The body of `MCTS.search` (lines 94-142), with the recursive call
abstracted as `recur`. -/
def searchStep (cfg : Cfg) (o : Oracle S)
    (recur : S → Bool → MCTS S → Option (ℚ × MCTS S))
    (board : S) (game_ended : Bool) (st : MCTS S) : Option (ℚ × MCTS S) :=
  let st1 := recordEs st board game_ended
  if st1.Es board = some true then some (1, st1)
  else if (st1.Ps board).isNone then
    some (-(o.predict board).1, expandLeaf o st1 board)
  else
    let a := selectAct cfg o st1 board
    let nx := o.step board a
    match recur nx.1 nx.2 st1 with
    | none => none
    | some (v, st2) => some (-v, applyBackup st2 board a v)

/-- `MCTS.search` with an explicit fuel for the unbounded Python recursion;
`none` means the source is still recursing after `fuel` nested calls. -/
def search (cfg : Cfg) (o : Oracle S) : Nat → S → Bool → MCTS S → Option (ℚ × MCTS S)
  | 0, _, _, _ => none
  | fuel + 1, board, game_ended, st => searchStep cfg o (search cfg o fuel) board game_ended st

/-- The simulation loop of `getActionProb` (lines 50-51):
`for i in range(self.numMCTSSim): self.search(canonicalBoard)`. -/
def simLoop (cfg : Cfg) (o : Oracle S) (fuel : Nat) (board : S) :
    Nat → MCTS S → Option (MCTS S)
  | 0, st => some st
  | n + 1, st =>
    match search cfg o fuel board false st with
    | none => none
    | some (_, st') => simLoop cfg o fuel board n st'

/-- Line 54: the root visit counts
`[self.Nsa[(s, a)] if (s, a) in self.Nsa else 0 for a in range(self.action_dim)]`. -/
def countsOf (st : MCTS S) (s : S) : List Nat :=
  (List.range action_dim).map (fun a => (st.Nsa s (a : Int)).getD 0)

/-- `MCTS.getActionProb` (lines 37-68).  The greedy branch picks, via the
injected `choice`, among the ascending indices attaining the maximal count.
In the tempered branch the source divides by `counts_sum` without a guard;
a zero sum raises `ZeroDivisionError`, modeled as `none`. -/
def getActionProb (cfg : Cfg) (o : Oracle S) (fuel : Nat) (board : S) (temp : ℚ)
    (st : MCTS S) : Option (List ℚ × MCTS S) :=
  match simLoop cfg o fuel board cfg.numMCTSSim st with
  | none => none
  | some st' =>
    let counts := countsOf st' board
    if temp = 0 then
      let m := counts.foldl max 0
      let bestAs := (List.range action_dim).filter (fun a => counts.getD a 0 = m)
      let bestA := o.choice bestAs
      some ((List.range action_dim).map (fun i => if i = bestA then (1 : ℚ) else 0), st')
    else
      let countsQ := counts.map (fun x : Nat => o.powFn (x : ℚ) (1 / temp))
      let csum := countsQ.sum
      if csum = 0 then none
      else some (countsQ.map (fun x => x / csum), st')

/-- A sequence of completed `search` calls, each with its own fuel, board and
caller-supplied termination flag; `none` if any call fails to complete. -/
def runSearches (cfg : Cfg) (o : Oracle S) :
    List (Nat × S × Bool) → MCTS S → Option (MCTS S)
  | [], st => some st
  | p :: rest, st =>
    match search cfg o p.1 p.2.1 p.2.2 st with
    | none => none
    | some (_, st') => runSearches cfg o rest st'

/-- Divergence of the source recursion: every fuel bound is exhausted. -/
def searchDiverges (cfg : Cfg) (o : Oracle S) (b : S) (e : Bool) (st : MCTS S) : Prop :=
  ∀ fuel, search cfg o fuel b e st = none

/-- Structural invariant of the statistics maps maintained by `search`. -/
def TreeInv (st : MCTS S) : Prop :=
  ∀ s : S,
    ((st.Ns s).getD 0 = ∑ a in Finset.range action_dim, (st.Nsa s (a : Int)).getD 0)
    ∧ (st.Ps s = none → st.Ns s = none ∧ ∀ a : Int, st.Nsa s a = none)
    ∧ ((st.Ps s).isSome → (st.Ns s).isSome)
    ∧ (∀ a : Int, st.Nsa s a ≠ none → 0 ≤ a ∧ a < (action_dim : Int))
    ∧ (∀ a : Int, st.Qsa s a = none ↔ st.Nsa s a = none)

/-- All stored action values lie in `[-1, 1]`. -/
def QsaBounded (st : MCTS S) : Prop :=
  ∀ s a q, st.Qsa s a = some q → -1 ≤ q ∧ q ≤ 1

end Engine

/-- First-wins argmax: `b` attains the maximum of `u` on `[0, n)` and no
earlier index ties it. -/
def FW (u : Nat → ℚ) (n b : Nat) : Prop :=
  b < n ∧ (∀ j, j < n → u j ≤ u b) ∧ ∀ j, j < b → u j < u b

/-- The spec's selection formula, written from the spec's own words (section
4.3) for the refinement comparison with `uVal`. -/
def specU (cfg : Cfg) (o : Oracle S) (st : MCTS S) (s : S) (a : Nat) : ℚ :=
  if (st.Qsa s (a : Int)).isSome then
    (st.Qsa s (a : Int)).getD 0 + cfg.cpuct * (((st.Ps s).getD []).getD a 0) *
      o.sqrtFn (((st.Ns s).getD 0 : ℚ)) / (1 + (((st.Nsa s (a : Int)).getD 0 : ℚ)))
  else
    cfg.cpuct * (((st.Ps s).getD []).getD a 0) *
      o.sqrtFn (((st.Ns s).getD 0 : ℚ) + EPS)

/-- A square root stub used to instantiate the abstract `sqrtFn` in concrete
witnesses (no claim depends on actual square-root values). -/
def zeroSqrt : ℚ → ℚ := fun _ => 0

/-- A power stub used where the tempered branch is not exercised. -/
def zeroPow : ℚ → ℚ → ℚ := fun _ _ => 0

/-- The float power `x ** e` at exponent `1`: `x ** 1.0 == x`, used by the
degenerate-normalization scenario at temperature 1. -/
def idPow : ℚ → ℚ → ℚ := fun x _ => x

/-- A concrete random choice: the first element (deterministic on the
singleton candidate lists arising in the scenarios). -/
def headChoice : List Nat → Nat := fun l => l.headD 0

/-- Scenario configuration for the two-simulation scenario: 2 simulations,
exploration constant `C`. -/
def c1cfg (C : ℚ) : Cfg := { numMCTSSim := 2, cpuct := C }

/-- Scenario collaborators: estimator always returns value `0.5` and prior
`[1/6] * 6`; the environment steps to a fresh state and never reports
termination. -/
def c1oracle (sq : ℚ → ℚ) (pw : ℚ → ℚ → ℚ) (ch : List Nat → Nat) : Oracle Nat :=
  { predict := fun _ => (1 / 2, List.replicate 6 (1 / 6)),
    step := fun b _ => (b + 1, false),
    sqrtFn := sq, powFn := pw, choice := ch }

/-- Fully concrete instance of the scenario configuration. -/
def c1cfgC : Cfg := c1cfg 1

/-- Fully concrete instance of the scenario collaborators. -/
def c1oC : Oracle Nat := c1oracle zeroSqrt zeroPow headChoice

/-- Tree after simulation 1: the root (state `0`) expanded as a leaf. -/
def c1st1 : MCTS Nat := expandLeaf c1oC (recordEs initTree 0 false) 0

/-- Tree inside simulation 2 after the child `s1` (state `1`) was expanded. -/
def c1inner : MCTS Nat := expandLeaf c1oC (recordEs c1st1 1 false) 1

/-- Tree after simulation 2: the backup of `-0.5` along edge `(root, 0)`. -/
def c1st2 : MCTS Nat := applyBackup c1inner 0 0 (-(1 / 2))

/-- Configuration for the divergence scenario. -/
def loopCfg : Cfg := { numMCTSSim := 1, cpuct := 1 }

/-- An environment satisfying the interface contract that steps every state
to itself and never reports termination, with a contract-conforming
estimator. -/
def loopOracle : Oracle Nat :=
  { predict := fun _ => (0, List.replicate 6 (1 / 6)),
    step := fun b _ => (b, false),
    sqrtFn := zeroSqrt, powFn := zeroPow, choice := headChoice }

/-- Tree after one completed search of the self-loop scenario: state `0`
expanded. -/
def loopSt : MCTS Nat := expandLeaf loopOracle (recordEs initTree 0 false) 0

/-- A tree whose state `0` is cached terminal. -/
def termSt : MCTS Nat := { (initTree : MCTS Nat) with Es := setE (initTree : MCTS Nat).Es 0 true }

/-- Configuration for the degenerate-normalization scenario: zero
simulations, so all root counts stay `0`. -/
def c8cfg : Cfg := { numMCTSSim := 0, cpuct := 1 }

/-- Collaborators for the degenerate-normalization scenario, with the float
power at exponent `1/1 = 1` realized by `idPow`. -/
def c8oracle : Oracle Nat := c1oracle zeroSqrt idPow headChoice

/-! Basic lemmas about the dict updates and the engine's state transformers. -/

section BasicLemmas

variable {S : Type} [DecidableEq S]

@[simp] theorem setE_self {β : Type} (f : S → Option β) (x : S) (b : β) :
    setE f x b x = some b := by simp [setE]

theorem setE_ne {β : Type} (f : S → Option β) (x y : S) (b : β) (h : y ≠ x) :
    setE f x b y = f y := by simp [setE, h]

@[simp] theorem setSA_self {β : Type} (f : S → Int → Option β) (s : S) (a : Int) (b : β) :
    setSA f s a b s a = some b := by simp [setSA]

theorem setSA_ne {β : Type} (f : S → Int → Option β) (s : S) (a : Int) (b : β)
    (s' : S) (a' : Int) (h : ¬(s' = s ∧ a' = a)) :
    setSA f s a b s' a' = f s' a' := by simp [setSA, h]

@[simp] theorem recordEs_Qsa (st : MCTS S) (b : S) (e : Bool) :
    (recordEs st b e).Qsa = st.Qsa := by
  cases h : st.Es b <;> simp [recordEs, h]

@[simp] theorem recordEs_Nsa (st : MCTS S) (b : S) (e : Bool) :
    (recordEs st b e).Nsa = st.Nsa := by
  cases h : st.Es b <;> simp [recordEs, h]

@[simp] theorem recordEs_Ns (st : MCTS S) (b : S) (e : Bool) :
    (recordEs st b e).Ns = st.Ns := by
  cases h : st.Es b <;> simp [recordEs, h]

@[simp] theorem recordEs_Ps (st : MCTS S) (b : S) (e : Bool) :
    (recordEs st b e).Ps = st.Ps := by
  cases h : st.Es b <;> simp [recordEs, h]

theorem recordEs_of_some (st : MCTS S) (b : S) (e x : Bool) (h : st.Es b = some x) :
    recordEs st b e = st := by simp [recordEs, h]

theorem recordEs_of_none (st : MCTS S) (b : S) (e : Bool) (h : st.Es b = none) :
    recordEs st b e = { st with Es := setE st.Es b e } := by simp [recordEs, h]

theorem recordEs_Es_self (st : MCTS S) (b : S) (e : Bool) (h : st.Es b = none) :
    (recordEs st b e).Es b = some e := by
  rw [recordEs_of_none st b e h]; simp

theorem recordEs_Es_pres (st : MCTS S) (b x : S) (e bb : Bool) (h : st.Es x = some bb) :
    (recordEs st b e).Es x = some bb := by
  cases hb : st.Es b with
  | none =>
    rw [recordEs_of_none st b e hb]
    by_cases hxb : x = b
    · subst hxb; rw [h] at hb; cases hb
    · simpa [setE, hxb] using h
  | some y => rw [recordEs_of_some st b e y hb]; exact h

theorem recordEs_Es_ne_none (st : MCTS S) (b : S) (e : Bool) :
    (recordEs st b e).Es b ≠ none := by
  cases h : st.Es b with
  | none => rw [recordEs_of_none st b e h]; simp
  | some x => rw [recordEs_of_some st b e x h, h]; simp

theorem recordEs_Es_false (st : MCTS S) (b : S) (e : Bool)
    (hT : (recordEs st b e).Es b ≠ some true) :
    (recordEs st b e).Es b = some false := by
  rcases h : (recordEs st b e).Es b with _ | x
  · exact absurd h (recordEs_Es_ne_none st b e)
  · cases x
    · rfl
    · exact absurd h hT

@[simp] theorem expandLeaf_Qsa (o : Oracle S) (st : MCTS S) (b : S) :
    (expandLeaf o st b).Qsa = st.Qsa := rfl

@[simp] theorem expandLeaf_Nsa (o : Oracle S) (st : MCTS S) (b : S) :
    (expandLeaf o st b).Nsa = st.Nsa := rfl

@[simp] theorem expandLeaf_Es (o : Oracle S) (st : MCTS S) (b : S) :
    (expandLeaf o st b).Es = st.Es := rfl

theorem expandLeaf_Ps_self (o : Oracle S) (st : MCTS S) (b : S) :
    (expandLeaf o st b).Ps b = some (o.predict b).2 := by simp [expandLeaf]

theorem expandLeaf_Ns_self (o : Oracle S) (st : MCTS S) (b : S) :
    (expandLeaf o st b).Ns b = some 0 := by simp [expandLeaf]

theorem expandLeaf_Ps_ne (o : Oracle S) (st : MCTS S) (b x : S) (h : x ≠ b) :
    (expandLeaf o st b).Ps x = st.Ps x := by simp [expandLeaf, setE, h]

theorem expandLeaf_Ns_ne (o : Oracle S) (st : MCTS S) (b x : S) (h : x ≠ b) :
    (expandLeaf o st b).Ns x = st.Ns x := by simp [expandLeaf, setE, h]

@[simp] theorem applyBackup_Es (st : MCTS S) (s : S) (a : Int) (v : ℚ) :
    (applyBackup st s a v).Es = st.Es := by
  cases h : st.Qsa s a <;> simp [applyBackup, h]

@[simp] theorem applyBackup_Ps (st : MCTS S) (s : S) (a : Int) (v : ℚ) :
    (applyBackup st s a v).Ps = st.Ps := by
  cases h : st.Qsa s a <;> simp [applyBackup, h]

theorem applyBackup_Ns_self (st : MCTS S) (s : S) (a : Int) (v : ℚ) :
    (applyBackup st s a v).Ns s = some ((st.Ns s).getD 0 + 1) := by
  cases h : st.Qsa s a <;> simp [applyBackup, h]

theorem applyBackup_Ns_ne (st : MCTS S) (s x : S) (a : Int) (v : ℚ) (h : x ≠ s) :
    (applyBackup st s a v).Ns x = st.Ns x := by
  cases hq : st.Qsa s a <;> simp [applyBackup, hq, setE, h]

theorem applyBackup_Nsa_ne (st : MCTS S) (s x : S) (a a' : Int) (v : ℚ)
    (h : ¬(x = s ∧ a' = a)) :
    (applyBackup st s a v).Nsa x a' = st.Nsa x a' := by
  cases hq : st.Qsa s a <;> simp [applyBackup, hq, setSA, h]

theorem applyBackup_Qsa_ne (st : MCTS S) (s x : S) (a a' : Int) (v : ℚ)
    (h : ¬(x = s ∧ a' = a)) :
    (applyBackup st s a v).Qsa x a' = st.Qsa x a' := by
  cases hq : st.Qsa s a <;> simp [applyBackup, hq, setSA, h]

theorem applyBackup_Nsa_self_of_some (st : MCTS S) (s : S) (a : Int) (v q : ℚ)
    (h : st.Qsa s a = some q) :
    (applyBackup st s a v).Nsa s a = some ((st.Nsa s a).getD 0 + 1) := by
  simp [applyBackup, h]

theorem applyBackup_Nsa_self_of_none (st : MCTS S) (s : S) (a : Int) (v : ℚ)
    (h : st.Qsa s a = none) :
    (applyBackup st s a v).Nsa s a = some 1 := by
  simp [applyBackup, h]

theorem applyBackup_Qsa_self_of_some (st : MCTS S) (s : S) (a : Int) (v q : ℚ)
    (h : st.Qsa s a = some q) :
    (applyBackup st s a v).Qsa s a =
      some (((((st.Nsa s a).getD 0 : ℕ) : ℚ) * q + v) / ((((st.Nsa s a).getD 0 : ℕ) : ℚ) + 1)) := by
  simp [applyBackup, h]

theorem applyBackup_Qsa_self_of_none (st : MCTS S) (s : S) (a : Int) (v : ℚ)
    (h : st.Qsa s a = none) :
    (applyBackup st s a v).Qsa s a = some v := by
  simp [applyBackup, h]

theorem search_zero (cfg : Cfg) (o : Oracle S) (b : S) (e : Bool) (st : MCTS S) :
    search cfg o 0 b e st = none := rfl

theorem search_succ (cfg : Cfg) (o : Oracle S) (n : Nat) (b : S) (e : Bool) (st : MCTS S) :
    search cfg o (n + 1) b e st = searchStep cfg o (search cfg o n) b e st := rfl

theorem searchStep_terminal (cfg : Cfg) (o : Oracle S)
    (r : S → Bool → MCTS S → Option (ℚ × MCTS S)) (b : S) (e : Bool) (st : MCTS S)
    (h : (recordEs st b e).Es b = some true) :
    searchStep cfg o r b e st = some (1, recordEs st b e) := by
  simp [searchStep, h]

theorem searchStep_leaf (cfg : Cfg) (o : Oracle S)
    (r : S → Bool → MCTS S → Option (ℚ × MCTS S)) (b : S) (e : Bool) (st : MCTS S)
    (h : (recordEs st b e).Es b = some false) (hp : st.Ps b = none) :
    searchStep cfg o r b e st = some (-(o.predict b).1, expandLeaf o (recordEs st b e) b) := by
  simp [searchStep, h, hp]

theorem searchStep_expanded (cfg : Cfg) (o : Oracle S)
    (r : S → Bool → MCTS S → Option (ℚ × MCTS S)) (b : S) (e : Bool) (st : MCTS S)
    (h : (recordEs st b e).Es b = some false) (hp : (st.Ps b).isSome) :
    searchStep cfg o r b e st =
      match r (o.step b (selectAct cfg o (recordEs st b e) b)).1
              (o.step b (selectAct cfg o (recordEs st b e) b)).2 (recordEs st b e) with
      | none => none
      | some (v, st2) => some (-v, applyBackup st2 b (selectAct cfg o (recordEs st b e) b) v) := by
  rcases Option.isSome_iff_exists.1 hp with ⟨p, hp'⟩
  simp [searchStep, h, hp']

theorem searchStep_expanded_some (cfg : Cfg) (o : Oracle S)
    (r : S → Bool → MCTS S → Option (ℚ × MCTS S)) (b : S) (e : Bool) (st : MCTS S)
    (h : (recordEs st b e).Es b = some false) (hp : (st.Ps b).isSome)
    (v : ℚ) (st2 : MCTS S)
    (hr : r (o.step b (selectAct cfg o (recordEs st b e) b)).1
            (o.step b (selectAct cfg o (recordEs st b e) b)).2 (recordEs st b e) = some (v, st2)) :
    searchStep cfg o r b e st = some (-v, applyBackup st2 b (selectAct cfg o (recordEs st b e) b) v) := by
  rw [searchStep_expanded cfg o r b e st h hp, hr]

end BasicLemmas

/-! The selection loop computes a first-wins argmax. -/

theorem selFold_cons (u : Nat → ℚ) (init : WithBot ℚ × Int) (a : Nat) (l : List Nat) :
    selFold u init (a :: l) = selFold u (selStep u init a) l := by
  simp [selFold]

theorem selStep_bot (u : Nat → ℚ) (bb : Int) (a : Nat) :
    selStep u ((⊥ : WithBot ℚ), bb) a = (((u a : ℚ) : WithBot ℚ), (a : Int)) := by
  simp [selStep]

theorem selStep_coe_of_lt (u : Nat → ℚ) (c : ℚ) (bb : Int) (a : Nat) (h : c < u a) :
    selStep u ((c : WithBot ℚ), bb) a = (((u a : ℚ) : WithBot ℚ), (a : Int)) := by
  simp [selStep, WithBot.coe_lt_coe, h]

theorem selStep_coe_of_ge (u : Nat → ℚ) (c : ℚ) (bb : Int) (a : Nat) (h : ¬c < u a) :
    selStep u ((c : WithBot ℚ), bb) a = ((c : WithBot ℚ), bb) := by
  simp [selStep, WithBot.coe_lt_coe, h]

theorem FW_extend_lt (u : Nat → ℚ) (i b : Nat) (h : FW u i b) (hi : u b < u i) :
    FW u (i + 1) i := by
  obtain ⟨hbi, hmax, hfirst⟩ := h
  refine ⟨Nat.lt_succ_self i, ?_, ?_⟩
  · intro j hj
    rcases Nat.lt_succ_iff_lt_or_eq.1 hj with hj' | rfl
    · exact le_of_lt (lt_of_le_of_lt (hmax j hj') hi)
    · exact le_rfl
  · intro j hj
    exact lt_of_le_of_lt (hmax j hj) hi

theorem FW_extend_ge (u : Nat → ℚ) (i b : Nat) (h : FW u i b) (hi : ¬u b < u i) :
    FW u (i + 1) b := by
  obtain ⟨hbi, hmax, hfirst⟩ := h
  refine ⟨Nat.lt_succ_of_lt hbi, ?_, hfirst⟩
  intro j hj
  rcases Nat.lt_succ_iff_lt_or_eq.1 hj with hj' | rfl
  · exact hmax j hj'
  · exact not_lt.1 hi

theorem selFold_fw (u : Nat → ℚ) :
    ∀ (k i b : Nat), FW u i b →
      ∃ b' : Nat, selFold u (((u b : ℚ) : WithBot ℚ), (b : Int)) (List.range' i k) =
          (((u b' : ℚ) : WithBot ℚ), (b' : Int))
        ∧ FW u (i + k) b' := by
  intro k
  induction k with
  | zero =>
    intro i b h
    exact ⟨b, rfl, h⟩
  | succ k ih =>
    intro i b h
    rw [List.range'_succ, selFold_cons]
    have heq : (i + 1) + k = i + (k + 1) := by omega
    by_cases hlt : u b < u i
    · rw [selStep_coe_of_lt u _ _ _ hlt]
      obtain ⟨b', hb', hfw⟩ := ih (i + 1) i (FW_extend_lt u i b h hlt)
      exact ⟨b', hb', heq ▸ hfw⟩
    · rw [selStep_coe_of_ge u _ _ _ hlt]
      obtain ⟨b', hb', hfw⟩ := ih (i + 1) b (FW_extend_ge u i b h hlt)
      exact ⟨b', hb', heq ▸ hfw⟩

theorem FW_one_zero (u : Nat → ℚ) : FW u 1 0 := by
  refine ⟨Nat.one_pos, ?_, ?_⟩
  · intro j hj
    interval_cases j
    exact le_rfl
  · intro j hj
    exact absurd hj (Nat.not_lt_zero j)

theorem FW_unique (u : Nat → ℚ) (n b b' : Nat) (h : FW u n b) (h' : FW u n b') : b = b' := by
  by_contra hne
  rcases Nat.lt_or_ge b b' with hlt | hge
  · exact absurd (h.2.1 b' h'.1) (not_le.2 (h'.2.2 b hlt))
  · rcases Nat.lt_or_ge b' b with hlt' | hge'
    · exact absurd (h'.2.1 b h.1) (not_le.2 (h.2.2 b' hlt'))
    · exact hne (Nat.le_antisymm hge' hge)

theorem selectAct_fw {S : Type} [DecidableEq S] (cfg : Cfg) (o : Oracle S) (st : MCTS S) (s : S) :
    ∃ b : Nat, selectAct cfg o st s = (b : Int) ∧ FW (uVal cfg o st s) action_dim b := by
  have hr : List.range action_dim = 0 :: List.range' 1 5 := by decide
  unfold selectAct
  rw [hr, selFold_cons, selStep_bot]
  obtain ⟨b', hb', hfw⟩ := selFold_fw (uVal cfg o st s) 5 1 0 (FW_one_zero _)
  exact ⟨b', by rw [hb'], hfw⟩

theorem selectAct_mem {S : Type} [DecidableEq S] (cfg : Cfg) (o : Oracle S) (st : MCTS S) (s : S) :
    ∃ b : Nat, selectAct cfg o st s = (b : Int) ∧ b < action_dim := by
  obtain ⟨b, hb, hfw⟩ := selectAct_fw cfg o st s
  exact ⟨b, hb, hfw.1⟩

/-! Monotonicity of the statistics dicts along a completed `search` call. -/

section Mono

variable {S : Type} [DecidableEq S] (cfg : Cfg) (o : Oracle S)

theorem search_Es_mono :
    ∀ (fuel : Nat) (b : S) (e : Bool) (st : MCTS S) (v : ℚ) (st' : MCTS S),
      search cfg o fuel b e st = some (v, st') →
      ∀ (x : S) (bb : Bool), st.Es x = some bb → st'.Es x = some bb := by
  intro fuel
  induction fuel with
  | zero =>
    intro b e st v st' h
    simp [search_zero] at h
  | succ n ih =>
    intro b e st v st' h x bb hx
    rw [search_succ] at h
    have hx1 : (recordEs st b e).Es x = some bb := recordEs_Es_pres st b x e bb hx
    by_cases hT : (recordEs st b e).Es b = some true
    · rw [searchStep_terminal cfg o _ b e st hT] at h
      obtain ⟨rfl, rfl⟩ : (1 : ℚ) = v ∧ recordEs st b e = st' := by
        simpa using h
      exact hx1
    · have hES := recordEs_Es_false st b e hT
      rcases hP : st.Ps b with _ | p
      · rw [searchStep_leaf cfg o _ b e st hES hP] at h
        obtain ⟨rfl, rfl⟩ : -(o.predict b).1 = v ∧ expandLeaf o (recordEs st b e) b = st' := by
          simpa using h
        simpa using hx1
      · have hPS : (st.Ps b).isSome := by rw [hP]; rfl
        rw [searchStep_expanded cfg o _ b e st hES hPS] at h
        rcases hr : search cfg o n (o.step b (selectAct cfg o (recordEs st b e) b)).1
            (o.step b (selectAct cfg o (recordEs st b e) b)).2 (recordEs st b e) with _ | ⟨v2, st2⟩
        · rw [hr] at h
          simp at h
        · rw [hr] at h
          obtain ⟨rfl, rfl⟩ :
              -v2 = v ∧ applyBackup st2 b (selectAct cfg o (recordEs st b e) b) v2 = st' := by
            simpa using h
          have := ih _ _ _ _ _ hr x bb hx1
          simpa using this

theorem search_Ps_mono :
    ∀ (fuel : Nat) (b : S) (e : Bool) (st : MCTS S) (v : ℚ) (st' : MCTS S),
      search cfg o fuel b e st = some (v, st') →
      ∀ (x : S) (p : List ℚ), st.Ps x = some p → st'.Ps x = some p := by
  intro fuel
  induction fuel with
  | zero =>
    intro b e st v st' h
    simp [search_zero] at h
  | succ n ih =>
    intro b e st v st' h x p hx
    rw [search_succ] at h
    have hx1 : (recordEs st b e).Ps x = some p := by simpa using hx
    by_cases hT : (recordEs st b e).Es b = some true
    · rw [searchStep_terminal cfg o _ b e st hT] at h
      obtain ⟨rfl, rfl⟩ : (1 : ℚ) = v ∧ recordEs st b e = st' := by
        simpa using h
      exact hx1
    · have hES := recordEs_Es_false st b e hT
      rcases hP : st.Ps b with _ | pp
      · rw [searchStep_leaf cfg o _ b e st hES hP] at h
        obtain ⟨rfl, rfl⟩ : -(o.predict b).1 = v ∧ expandLeaf o (recordEs st b e) b = st' := by
          simpa using h
        have hxb : x ≠ b := by
          intro hxb
          subst hxb
          rw [recordEs_Ps] at hx1
          rw [hx1] at hP
          cases hP
        rw [expandLeaf_Ps_ne o _ b x hxb]
        exact hx1
      · have hPS : (st.Ps b).isSome := by rw [hP]; rfl
        rw [searchStep_expanded cfg o _ b e st hES hPS] at h
        rcases hr : search cfg o n (o.step b (selectAct cfg o (recordEs st b e) b)).1
            (o.step b (selectAct cfg o (recordEs st b e) b)).2 (recordEs st b e) with _ | ⟨v2, st2⟩
        · rw [hr] at h
          simp at h
        · rw [hr] at h
          obtain ⟨rfl, rfl⟩ :
              -v2 = v ∧ applyBackup st2 b (selectAct cfg o (recordEs st b e) b) v2 = st' := by
            simpa using h
          have := ih _ _ _ _ _ hr x p hx1
          simpa using this

end Mono

/-! Preservation of the structural invariant. -/

theorem sum_incr_at (f g : Nat → Nat) (k : Nat) (hk : k < action_dim)
    (hgk : g k = f k + 1) (hg : ∀ j, j ≠ k → g j = f j) :
    ∑ j in Finset.range action_dim, g j = (∑ j in Finset.range action_dim, f j) + 1 := by
  have hk' : k ∈ Finset.range action_dim := Finset.mem_range.2 hk
  rw [← Finset.add_sum_erase _ g hk', ← Finset.add_sum_erase _ f hk', hgk]
  have he : ∑ j in (Finset.range action_dim).erase k, g j
      = ∑ j in (Finset.range action_dim).erase k, f j :=
    Finset.sum_congr rfl (fun j hj => hg j (Finset.ne_of_mem_erase hj))
  rw [he]
  ring

section InvPres

variable {S : Type} [DecidableEq S]

theorem TreeInv_recordEs (st : MCTS S) (b : S) (e : Bool) (h : TreeInv st) :
    TreeInv (recordEs st b e) := by
  intro s
  simpa [TreeInv, recordEs_Ns, recordEs_Nsa, recordEs_Ps, recordEs_Qsa] using h s

theorem TreeInv_expandLeaf (o : Oracle S) (st : MCTS S) (b : S)
    (hInv : TreeInv st) (hP : st.Ps b = none) : TreeInv (expandLeaf o st b) := by
  intro s
  obtain ⟨h1, h2, h3, h4, h5⟩ := hInv s
  by_cases hsb : s = b
  · subst hsb
    obtain ⟨hNs, hNsa⟩ := h2 hP
    refine ⟨?_, ?_, ?_, ?_, ?_⟩
    · rw [expandLeaf_Ns_self]
      have : ∑ a in Finset.range action_dim,
          ((expandLeaf o st s).Nsa s (a : Int)).getD 0 = 0 := by
        refine Finset.sum_eq_zero fun a _ => ?_
        rw [expandLeaf_Nsa, hNsa]
        rfl
      rw [this]
      rfl
    · intro hc
      rw [expandLeaf_Ps_self] at hc
      cases hc
    · intro _
      rw [expandLeaf_Ns_self]
      rfl
    · intro a
      rw [expandLeaf_Nsa]
      exact h4 a
    · intro a
      rw [expandLeaf_Nsa, expandLeaf_Qsa]
      exact h5 a
  · refine ⟨?_, ?_, ?_, ?_, ?_⟩
    · rw [expandLeaf_Ns_ne o st b s hsb]
      simpa [expandLeaf_Nsa] using h1
    · intro hc
      rw [expandLeaf_Ps_ne o st b s hsb] at hc
      obtain ⟨hNs, hNsa⟩ := h2 hc
      rw [expandLeaf_Ns_ne o st b s hsb]
      exact ⟨hNs, fun a => by rw [expandLeaf_Nsa]; exact hNsa a⟩
    · intro hc
      rw [expandLeaf_Ps_ne o st b s hsb] at hc
      rw [expandLeaf_Ns_ne o st b s hsb]
      exact h3 hc
    · intro a
      rw [expandLeaf_Nsa]
      exact h4 a
    · intro a
      rw [expandLeaf_Nsa, expandLeaf_Qsa]
      exact h5 a

theorem TreeInv_applyBackup (st : MCTS S) (b : S) (k : Nat) (hk : k < action_dim) (v : ℚ)
    (hInv : TreeInv st) (hPs : (st.Ps b).isSome) :
    TreeInv (applyBackup st b (k : Int) v) := by
  have hNsaSelf : (applyBackup st b (k : Int) v).Nsa b (k : Int)
      = some ((st.Nsa b (k : Int)).getD 0 + 1) := by
    rcases hQ : st.Qsa b (k : Int) with _ | q
    · have hN : st.Nsa b (k : Int) = none := ((hInv b).2.2.2.2 (k : Int)).1 hQ
      rw [applyBackup_Nsa_self_of_none st b (k : Int) v hQ, hN]
      rfl
    · exact applyBackup_Nsa_self_of_some st b (k : Int) v q hQ
  have hQsaSelf : ∃ y, (applyBackup st b (k : Int) v).Qsa b (k : Int) = some y := by
    rcases hQ : st.Qsa b (k : Int) with _ | q
    · exact ⟨v, applyBackup_Qsa_self_of_none st b (k : Int) v hQ⟩
    · exact ⟨_, applyBackup_Qsa_self_of_some st b (k : Int) v q hQ⟩
  intro s
  obtain ⟨h1, h2, h3, h4, h5⟩ := hInv s
  by_cases hsb : s = b
  · subst hsb
    refine ⟨?_, ?_, ?_, ?_, ?_⟩
    · rw [applyBackup_Ns_self]
      have hsum := sum_incr_at (fun j => (st.Nsa s (j : Int)).getD 0)
        (fun j => ((applyBackup st s (k : Int) v).Nsa s (j : Int)).getD 0) k hk
        (by
          show ((applyBackup st s (k : Int) v).Nsa s (k : Int)).getD 0
            = (st.Nsa s (k : Int)).getD 0 + 1
          rw [hNsaSelf]
          rfl)
        (fun j hj => by
          show ((applyBackup st s (k : Int) v).Nsa s (j : Int)).getD 0
            = (st.Nsa s (j : Int)).getD 0
          rw [applyBackup_Nsa_ne st s s (k : Int) (j : Int) v
            (fun hc => hj (by exact_mod_cast hc.2))])
      rw [hsum, ← h1]
      rfl
    · intro hc
      rw [applyBackup_Ps] at hc
      rw [hc] at hPs
      cases hPs
    · intro _
      rw [applyBackup_Ns_self]
      rfl
    · intro a ha
      by_cases hak : a = (k : Int)
      · subst hak
        constructor
        · exact Int.ofNat_nonneg k
        · exact_mod_cast hk
      · rw [applyBackup_Nsa_ne st s s (k : Int) a v (fun hc => hak hc.2)] at ha
        exact h4 a ha
    · intro a
      by_cases hak : a = (k : Int)
      · subst hak
        obtain ⟨y, hy⟩ := hQsaSelf
        rw [hy, hNsaSelf]
        simp
      · rw [applyBackup_Nsa_ne st s s (k : Int) a v (fun hc => hak hc.2),
          applyBackup_Qsa_ne st s s (k : Int) a v (fun hc => hak hc.2)]
        exact h5 a
  · refine ⟨?_, ?_, ?_, ?_, ?_⟩
    · rw [applyBackup_Ns_ne st b s (k : Int) v hsb]
      have : ∀ j ∈ Finset.range action_dim,
          ((applyBackup st b (k : Int) v).Nsa s (j : Int)).getD 0
            = (st.Nsa s (j : Int)).getD 0 := fun j _ => by
        rw [applyBackup_Nsa_ne st b s (k : Int) (j : Int) v (fun hc => hsb hc.1)]
      rw [Finset.sum_congr rfl this]
      exact h1
    · intro hc
      rw [applyBackup_Ps] at hc
      obtain ⟨hNs, hNsa⟩ := h2 hc
      rw [applyBackup_Ns_ne st b s (k : Int) v hsb]
      refine ⟨hNs, fun a => ?_⟩
      rw [applyBackup_Nsa_ne st b s (k : Int) a v (fun hc' => hsb hc'.1)]
      exact hNsa a
    · intro hc
      rw [applyBackup_Ps] at hc
      rw [applyBackup_Ns_ne st b s (k : Int) v hsb]
      exact h3 hc
    · intro a ha
      rw [applyBackup_Nsa_ne st b s (k : Int) a v (fun hc => hsb hc.1)] at ha
      exact h4 a ha
    · intro a
      rw [applyBackup_Nsa_ne st b s (k : Int) a v (fun hc => hsb hc.1),
        applyBackup_Qsa_ne st b s (k : Int) a v (fun hc => hsb hc.1)]
      exact h5 a

theorem search_TreeInv (cfg : Cfg) (o : Oracle S) :
    ∀ (fuel : Nat) (b : S) (e : Bool) (st : MCTS S) (v : ℚ) (st' : MCTS S),
      TreeInv st → search cfg o fuel b e st = some (v, st') → TreeInv st' := by
  intro fuel
  induction fuel with
  | zero =>
    intro b e st v st' _ h
    simp [search_zero] at h
  | succ n ih =>
    intro b e st v st' hInv h
    rw [search_succ] at h
    have hInv1 : TreeInv (recordEs st b e) := TreeInv_recordEs st b e hInv
    by_cases hT : (recordEs st b e).Es b = some true
    · rw [searchStep_terminal cfg o _ b e st hT] at h
      obtain ⟨rfl, rfl⟩ : (1 : ℚ) = v ∧ recordEs st b e = st' := by
        simpa using h
      exact hInv1
    · have hES := recordEs_Es_false st b e hT
      rcases hP : st.Ps b with _ | pp
      · rw [searchStep_leaf cfg o _ b e st hES hP] at h
        obtain ⟨rfl, rfl⟩ : -(o.predict b).1 = v ∧ expandLeaf o (recordEs st b e) b = st' := by
          simpa using h
        exact TreeInv_expandLeaf o _ b hInv1 (by simpa using hP)
      · have hPS : (st.Ps b).isSome := by rw [hP]; rfl
        rw [searchStep_expanded cfg o _ b e st hES hPS] at h
        rcases hr : search cfg o n (o.step b (selectAct cfg o (recordEs st b e) b)).1
            (o.step b (selectAct cfg o (recordEs st b e) b)).2 (recordEs st b e) with _ | ⟨v2, st2⟩
        · rw [hr] at h
          simp at h
        · rw [hr] at h
          obtain ⟨rfl, rfl⟩ :
              -v2 = v ∧ applyBackup st2 b (selectAct cfg o (recordEs st b e) b) v2 = st' := by
            simpa using h
          have hInv2 := ih _ _ _ _ _ hInv1 hr
          have hPs2 : (st2.Ps b).isSome := by
            have := search_Ps_mono cfg o n _ _ _ _ _ hr b pp (by simpa using hP)
            rw [this]
            rfl
          obtain ⟨kk, hkk, hkd⟩ := selectAct_mem cfg o (recordEs st b e) b
          rw [hkk]
          exact TreeInv_applyBackup st2 b kk hkd v2 hInv2 hPs2
end InvPres

/-! Preservation of the value bound. -/

theorem mean_bound (n : Nat) (q v : ℚ) (hq1 : -1 ≤ q) (hq2 : q ≤ 1)
    (hv1 : -1 ≤ v) (hv2 : v ≤ 1) :
    -1 ≤ ((n : ℚ) * q + v) / ((n : ℚ) + 1) ∧ ((n : ℚ) * q + v) / ((n : ℚ) + 1) ≤ 1 := by
  have hn : (0 : ℚ) ≤ (n : ℚ) := Nat.cast_nonneg n
  have hd : (0 : ℚ) < (n : ℚ) + 1 := by linarith
  constructor
  · rw [le_div_iff₀ hd]
    nlinarith
  · rw [div_le_one hd]
    nlinarith

section BoundPres

variable {S : Type} [DecidableEq S]

theorem QsaBounded_recordEs (st : MCTS S) (b : S) (e : Bool) (h : QsaBounded st) :
    QsaBounded (recordEs st b e) := by
  intro s a q hq
  rw [recordEs_Qsa] at hq
  exact h s a q hq

theorem QsaBounded_expandLeaf (o : Oracle S) (st : MCTS S) (b : S) (h : QsaBounded st) :
    QsaBounded (expandLeaf o st b) := by
  intro s a q hq
  rw [expandLeaf_Qsa] at hq
  exact h s a q hq

theorem QsaBounded_applyBackup (st : MCTS S) (b : S) (a : Int) (v : ℚ)
    (h : QsaBounded st) (hv1 : -1 ≤ v) (hv2 : v ≤ 1) :
    QsaBounded (applyBackup st b a v) := by
  intro s a' q hq
  by_cases hc : s = b ∧ a' = a
  · obtain ⟨rfl, rfl⟩ := hc
    rcases hQ : st.Qsa s a' with _ | q0
    · rw [applyBackup_Qsa_self_of_none st s a' v hQ] at hq
      obtain rfl : v = q := by simpa using hq
      exact ⟨hv1, hv2⟩
    · rw [applyBackup_Qsa_self_of_some st s a' v q0 hQ] at hq
      obtain ⟨hb1, hb2⟩ := h s a' q0 hQ
      obtain rfl :
          ((((st.Nsa s a').getD 0 : ℕ) : ℚ) * q0 + v) / ((((st.Nsa s a').getD 0 : ℕ) : ℚ) + 1)
            = q := by
        simpa using hq
      exact mean_bound _ q0 v hb1 hb2 hv1 hv2
  · rw [applyBackup_Qsa_ne st b s a a' v hc] at hq
    exact h s a' q hq

theorem search_bounded (cfg : Cfg) (o : Oracle S)
    (hm : ∀ x : S, -1 ≤ (o.predict x).1 ∧ (o.predict x).1 ≤ 1) :
    ∀ (fuel : Nat) (b : S) (e : Bool) (st : MCTS S) (v : ℚ) (st' : MCTS S),
      QsaBounded st → search cfg o fuel b e st = some (v, st') →
      QsaBounded st' ∧ -1 ≤ v ∧ v ≤ 1 := by
  intro fuel
  induction fuel with
  | zero =>
    intro b e st v st' _ h
    simp [search_zero] at h
  | succ n ih =>
    intro b e st v st' hB h
    rw [search_succ] at h
    have hB1 : QsaBounded (recordEs st b e) := QsaBounded_recordEs st b e hB
    by_cases hT : (recordEs st b e).Es b = some true
    · rw [searchStep_terminal cfg o _ b e st hT] at h
      obtain ⟨rfl, rfl⟩ : (1 : ℚ) = v ∧ recordEs st b e = st' := by
        simpa using h
      exact ⟨hB1, by norm_num, le_rfl⟩
    · have hES := recordEs_Es_false st b e hT
      rcases hP : st.Ps b with _ | pp
      · rw [searchStep_leaf cfg o _ b e st hES hP] at h
        obtain ⟨rfl, rfl⟩ : -(o.predict b).1 = v ∧ expandLeaf o (recordEs st b e) b = st' := by
          simpa using h
        obtain ⟨hv1, hv2⟩ := hm b
        exact ⟨QsaBounded_expandLeaf o _ b hB1, by linarith, by linarith⟩
      · have hPS : (st.Ps b).isSome := by rw [hP]; rfl
        rw [searchStep_expanded cfg o _ b e st hES hPS] at h
        rcases hr : search cfg o n (o.step b (selectAct cfg o (recordEs st b e) b)).1
            (o.step b (selectAct cfg o (recordEs st b e) b)).2 (recordEs st b e) with _ | ⟨v2, st2⟩
        · rw [hr] at h
          simp at h
        · rw [hr] at h
          obtain ⟨rfl, rfl⟩ :
              -v2 = v ∧ applyBackup st2 b (selectAct cfg o (recordEs st b e) b) v2 = st' := by
            simpa using h
          obtain ⟨hB2, hv1, hv2⟩ := ih _ _ _ _ _ hB1 hr
          exact ⟨QsaBounded_applyBackup st2 b _ v2 hB2 hv1 hv2, by linarith, by linarith⟩

/-! Lifting the two invariants through a sequence of completed calls. -/

theorem runSearches_TreeInv (cfg : Cfg) (o : Oracle S) :
    ∀ (ps : List (Nat × S × Bool)) (st st' : MCTS S),
      TreeInv st → runSearches cfg o ps st = some st' → TreeInv st' := by
  intro ps
  induction ps with
  | nil =>
    intro st st' hInv h
    obtain rfl : st = st' := by simpa [runSearches] using h
    exact hInv
  | cons p rest ih =>
    intro st st' hInv h
    unfold runSearches at h
    rcases hr : search cfg o p.1 p.2.1 p.2.2 st with _ | ⟨v, st1⟩
    · rw [hr] at h
      simp at h
    · rw [hr] at h
      exact ih st1 st' (search_TreeInv cfg o p.1 p.2.1 p.2.2 st v st1 hInv hr) h

theorem runSearches_bounded (cfg : Cfg) (o : Oracle S)
    (hm : ∀ x : S, -1 ≤ (o.predict x).1 ∧ (o.predict x).1 ≤ 1) :
    ∀ (ps : List (Nat × S × Bool)) (st st' : MCTS S),
      QsaBounded st → runSearches cfg o ps st = some st' → QsaBounded st' := by
  intro ps
  induction ps with
  | nil =>
    intro st st' hB h
    obtain rfl : st = st' := by simpa [runSearches] using h
    exact hB
  | cons p rest ih =>
    intro st st' hB h
    unfold runSearches at h
    rcases hr : search cfg o p.1 p.2.1 p.2.2 st with _ | ⟨v, st1⟩
    · rw [hr] at h
      simp at h
    · rw [hr] at h
      exact ih st1 st'
        (search_bounded cfg o hm p.1 p.2.1 p.2.2 st v st1 hB hr).1 h

theorem TreeInv_initTree : TreeInv (initTree : MCTS S) := by
  intro s
  refine ⟨?_, ?_, ?_, ?_, ?_⟩
  · simp [initTree]
  · intro _
    exact ⟨rfl, fun _ => rfl⟩
  · intro hc
    cases hc
  · intro a ha
    exact absurd rfl ha
  · intro a
    exact ⟨fun _ => rfl, fun _ => rfl⟩

theorem QsaBounded_initTree : QsaBounded (initTree : MCTS S) := by
  intro s a q hq
  cases hq

end BoundPres

/-! Equation lemmas for the simulation loop and distribution extraction. -/

theorem simLoop_zero {S : Type} [DecidableEq S] (cfg : Cfg) (o : Oracle S) (fuel : Nat)
    (b : S) (st : MCTS S) : simLoop cfg o fuel b 0 st = some st := rfl

theorem simLoop_succ {S : Type} [DecidableEq S] (cfg : Cfg) (o : Oracle S) (fuel : Nat)
    (b : S) (n : Nat) (st : MCTS S) :
    simLoop cfg o fuel b (n + 1) st =
      match search cfg o fuel b false st with
      | none => none
      | some (_, st') => simLoop cfg o fuel b n st' := rfl

theorem getActionProb_temp0 {S : Type} [DecidableEq S] (cfg : Cfg) (o : Oracle S)
    (fuel : Nat) (b : S) (st st' : MCTS S)
    (h : simLoop cfg o fuel b cfg.numMCTSSim st = some st') :
    getActionProb cfg o fuel b 0 st =
      some ((List.range action_dim).map
        (fun i => if i = o.choice ((List.range action_dim).filter
          (fun a => (countsOf st' b).getD a 0 = (countsOf st' b).foldl max 0)) then (1 : ℚ)
          else 0), st') := by
  unfold getActionProb
  rw [h]
  rfl

theorem getActionProb_tempNZ_allZero {S : Type} [DecidableEq S] (cfg : Cfg) (o : Oracle S)
    (fuel : Nat) (b : S) (temp : ℚ) (st st' : MCTS S)
    (ht : temp ≠ 0)
    (h : simLoop cfg o fuel b cfg.numMCTSSim st = some st')
    (hcounts : ∀ x ∈ countsOf st' b, x = 0)
    (hpow : o.powFn 0 (1 / temp) = 0) :
    getActionProb cfg o fuel b temp st = none := by
  unfold getActionProb
  rw [h]
  have hq : ∀ y ∈ (countsOf st' b).map (fun x : Nat => o.powFn (x : ℚ) (1 / temp)), y = 0 := by
    intro y hy
    rcases List.mem_map.1 hy with ⟨x, hx, rfl⟩
    rw [hcounts x hx]
    simpa using hpow
  simp only [if_neg ht]
  rw [if_pos (List.sum_eq_zero hq)]

/-! Evaluation of the two-simulation scenario. -/

theorem c1_sim1 (C : ℚ) (sq : ℚ → ℚ) (pw : ℚ → ℚ → ℚ) (ch : List Nat → Nat) :
    search (c1cfg C) (c1oracle sq pw ch) 2 0 false initTree = some (-(1 / 2), c1st1) := rfl

theorem c1_sim1_fuel1 (C : ℚ) (sq : ℚ → ℚ) (pw : ℚ → ℚ → ℚ) (ch : List Nat → Nat) :
    search (c1cfg C) (c1oracle sq pw ch) 1 0 false initTree = some (-(1 / 2), c1st1) := rfl

theorem c1_uVal (C : ℚ) (sq : ℚ → ℚ) (pw : ℚ → ℚ → ℚ) (ch : List Nat → Nat)
    (a : Nat) (ha : a < 6) :
    uVal (c1cfg C) (c1oracle sq pw ch) c1st1 0 a = C * (1 / 6) * sq (0 + EPS) := by
  have hQ : c1st1.Qsa 0 (a : Int) = none := rfl
  have hP : c1st1.Ps 0 = some (List.replicate 6 (1 / 6)) := rfl
  have hN : c1st1.Ns 0 = some 0 := rfl
  have hgd : (List.replicate 6 ((1 : ℚ) / 6)).getD a 0 = 1 / 6 := by
    interval_cases a <;> rfl
  simp only [uVal, hQ, hP, hN, Option.getD_some, hgd, Nat.cast_zero]
  rfl

theorem c1_selectAct (C : ℚ) (sq : ℚ → ℚ) (pw : ℚ → ℚ → ℚ) (ch : List Nat → Nat) :
    selectAct (c1cfg C) (c1oracle sq pw ch) c1st1 0 = 0 := by
  obtain ⟨b, hb, hfw⟩ := selectAct_fw (c1cfg C) (c1oracle sq pw ch) c1st1 0
  have hfw0 : FW (uVal (c1cfg C) (c1oracle sq pw ch) c1st1 0) action_dim 0 := by
    refine ⟨by norm_num [action_dim], ?_, ?_⟩
    · intro j hj
      rw [c1_uVal C sq pw ch j hj, c1_uVal C sq pw ch 0 (by norm_num)]
    · intro j hj
      exact absurd hj (Nat.not_lt_zero j)
  have hb0 : b = 0 := FW_unique _ _ _ _ hfw hfw0
  rw [hb, hb0]
  rfl

theorem c1_sim2 (C : ℚ) (sq : ℚ → ℚ) (pw : ℚ → ℚ → ℚ) (ch : List Nat → Nat) :
    search (c1cfg C) (c1oracle sq pw ch) 2 0 false c1st1 = some (1 / 2, c1st2) := by
  have hrE : recordEs c1st1 0 false = c1st1 := recordEs_of_some c1st1 0 false false rfl
  have hsel := c1_selectAct C sq pw ch
  have hin : search (c1cfg C) (c1oracle sq pw ch) 1
      ((c1oracle sq pw ch).step 0 (selectAct (c1cfg C) (c1oracle sq pw ch) c1st1 0)).1
      ((c1oracle sq pw ch).step 0 (selectAct (c1cfg C) (c1oracle sq pw ch) c1st1 0)).2
      c1st1 = some (-(1 / 2), c1inner) := by
    rw [hsel]
    rfl
  rw [search_succ,
    searchStep_expanded (c1cfg C) (c1oracle sq pw ch) _ 0 false c1st1 (by rw [hrE]; rfl) rfl,
    hrE, hin, hsel]
  norm_num [c1st2]

theorem c1_counts : countsOf c1st2 0 = [1, 0, 0, 0, 0, 0] := rfl

theorem c1_simLoop (C : ℚ) (sq : ℚ → ℚ) (pw : ℚ → ℚ → ℚ) (ch : List Nat → Nat) :
    simLoop (c1cfg C) (c1oracle sq pw ch) 2 0 (c1cfg C).numMCTSSim initTree = some c1st2 := by
  have e1 : simLoop (c1cfg C) (c1oracle sq pw ch) 2 0 (c1cfg C).numMCTSSim initTree
      = match search (c1cfg C) (c1oracle sq pw ch) 2 0 false initTree with
        | none => none
        | some (_, st') => simLoop (c1cfg C) (c1oracle sq pw ch) 2 0 1 st' :=
    simLoop_succ (c1cfg C) (c1oracle sq pw ch) 2 0 1 initTree
  have e2 : simLoop (c1cfg C) (c1oracle sq pw ch) 2 0 1 c1st1
      = match search (c1cfg C) (c1oracle sq pw ch) 2 0 false c1st1 with
        | none => none
        | some (_, st') => simLoop (c1cfg C) (c1oracle sq pw ch) 2 0 0 st' :=
    simLoop_succ (c1cfg C) (c1oracle sq pw ch) 2 0 0 c1st1
  rw [e1, c1_sim1 C sq pw ch]
  show simLoop (c1cfg C) (c1oracle sq pw ch) 2 0 1 c1st1 = some c1st2
  rw [e2, c1_sim2 C sq pw ch]
  rfl

theorem c1_getActionProb (C : ℚ) (sq : ℚ → ℚ) (pw : ℚ → ℚ → ℚ) (ch : List Nat → Nat)
    (hch : ch [0] = 0) :
    getActionProb (c1cfg C) (c1oracle sq pw ch) 2 0 0 initTree
      = some ([1, 0, 0, 0, 0, 0], c1st2) := by
  rw [getActionProb_temp0 (c1cfg C) (c1oracle sq pw ch) 2 0 initTree c1st2
    (c1_simLoop C sq pw ch)]
  have hfil : (List.range action_dim).filter
      (fun a => (countsOf c1st2 0).getD a 0 = (countsOf c1st2 0).foldl max 0) = [0] := rfl
  rw [hfil]
  have hcho : (c1oracle sq pw ch).choice [0] = 0 := hch
  rw [hcho]
  rfl

/-! Divergence of the self-loop scenario and termination at leaves/terminals. -/

theorem loop_first : search loopCfg loopOracle 1 0 false initTree = some (0, loopSt) := rfl

theorem loop_step_none (n : Nat) (h : search loopCfg loopOracle n 0 false loopSt = none) :
    search loopCfg loopOracle (n + 1) 0 false loopSt = none := by
  rw [search_succ, searchStep_expanded loopCfg loopOracle _ 0 false loopSt rfl rfl,
    recordEs_of_some loopSt 0 false false rfl]
  have hstep : loopOracle.step 0 (selectAct loopCfg loopOracle loopSt 0) = (0, false) := rfl
  rw [hstep, show ((0 : Nat), false).1 = 0 from rfl, show ((0 : Nat), false).2 = false from rfl, h]

theorem loop_diverges : searchDiverges loopCfg loopOracle 0 false loopSt := by
  intro fuel
  induction fuel with
  | zero => rfl
  | succ n ih => exact loop_step_none n ih

theorem search_term_at_leaf_or_terminal {S : Type} [DecidableEq S] (cfg : Cfg) (o : Oracle S)
    (fuel : Nat) (b : S) (e : Bool) (st : MCTS S)
    (h : st.Ps b = none ∨ st.Es b = some true ∨ (st.Es b = none ∧ e = true)) :
    (search cfg o (fuel + 1) b e st).isSome := by
  rw [search_succ]
  by_cases hT : (recordEs st b e).Es b = some true
  · rw [searchStep_terminal cfg o _ b e st hT]
    rfl
  · have hES := recordEs_Es_false st b e hT
    have hP : st.Ps b = none := by
      rcases h with h | h | ⟨h1, h2⟩
      · exact h
      · exact absurd (recordEs_Es_pres st b b e true h) hT
      · subst h2
        exact absurd (recordEs_Es_self st b true h1) hT
    rw [searchStep_leaf cfg o _ b e st hES hP]
    rfl

theorem search_records_Es {S : Type} [DecidableEq S] (cfg : Cfg) (o : Oracle S)
    (fuel : Nat) (b : S) (e : Bool) (st : MCTS S) (v : ℚ) (st' : MCTS S)
    (h0 : st.Es b = none) (h : search cfg o (fuel + 1) b e st = some (v, st')) :
    st'.Es b = some e := by
  have h1 : (recordEs st b e).Es b = some e := recordEs_Es_self st b e h0
  rw [search_succ] at h
  by_cases hT : (recordEs st b e).Es b = some true
  · rw [searchStep_terminal cfg o _ b e st hT] at h
    obtain ⟨rfl, rfl⟩ : (1 : ℚ) = v ∧ recordEs st b e = st' := by
      simpa using h
    exact h1
  · have hES := recordEs_Es_false st b e hT
    rcases hP : st.Ps b with _ | pp
    · rw [searchStep_leaf cfg o _ b e st hES hP] at h
      obtain ⟨rfl, rfl⟩ : -(o.predict b).1 = v ∧ expandLeaf o (recordEs st b e) b = st' := by
        simpa using h
      simpa using h1
    · have hPS : (st.Ps b).isSome := by rw [hP]; rfl
      rw [searchStep_expanded cfg o _ b e st hES hPS] at h
      rcases hr : search cfg o fuel (o.step b (selectAct cfg o (recordEs st b e) b)).1
          (o.step b (selectAct cfg o (recordEs st b e) b)).2 (recordEs st b e) with _ | ⟨v2, st2⟩
      · rw [hr] at h
        simp at h
      · rw [hr] at h
        obtain ⟨rfl, rfl⟩ :
            -v2 = v ∧ applyBackup st2 b (selectAct cfg o (recordEs st b e) b) v2 = st' := by
          simpa using h
        have := search_Es_mono cfg o fuel _ _ _ _ _ hr b e h1
        simpa using this

/-! Claim theorems. -/

/-- A membership-respecting random choice, as `np.random.choice` guarantees. -/
theorem headChoice_mem (l : List Nat) (hl : l ≠ []) : headChoice l ∈ l := by
  cases l with
  | nil => exact absurd rfl hl
  | cons x xs =>
    show (x :: xs).headD 0 ∈ x :: xs
    simp

/-- C1: two-simulation scenario with `actionDim = 6`, an estimator that always
returns value `0.5` and prior `[1/6]*6`, and an environment that never reports
termination.  Simulation 1 expands the root as a leaf (prior set,
`Ns[root] = 0`, no edge created); simulation 2 finds the root expanded, all six
UCB scores are equal, the ascending-order tie-break selects action `0`, the
child is a fresh leaf returning `-0.5`, and the backup sets
`Qsa[root,0] = -0.5`, `Nsa[root,0] = 1`, `Ns[root] = 1` with root-level return
`0.5`; the final root counts are `[1,0,0,0,0,0]` and `getActionProb` with
temperature `0` deterministically returns `[1,0,0,0,0,0]`, for every
membership-respecting random choice. -/
theorem C1_two_sim_scenario (C : ℚ) (sq : ℚ → ℚ) (pw : ℚ → ℚ → ℚ) (ch : List Nat → Nat)
    (hch : ∀ l : List Nat, l ≠ [] → ch l ∈ l) :
    search (c1cfg C) (c1oracle sq pw ch) 2 0 false initTree = some (-(1 / 2), c1st1)
    ∧ c1st1.Ps 0 = some (List.replicate 6 (1 / 6))
    ∧ c1st1.Ns 0 = some 0
    ∧ (∀ a : Int, c1st1.Nsa 0 a = none)
    ∧ (∀ a : Int, c1st1.Qsa 0 a = none)
    ∧ (∀ a b2 : Nat, a < 6 → b2 < 6 → uVal (c1cfg C) (c1oracle sq pw ch) c1st1 0 a
        = uVal (c1cfg C) (c1oracle sq pw ch) c1st1 0 b2)
    ∧ selectAct (c1cfg C) (c1oracle sq pw ch) c1st1 0 = 0
    ∧ search (c1cfg C) (c1oracle sq pw ch) 1 1 false c1st1 = some (-(1 / 2), c1inner)
    ∧ search (c1cfg C) (c1oracle sq pw ch) 2 0 false c1st1 = some (1 / 2, c1st2)
    ∧ c1st2.Qsa 0 0 = some (-(1 / 2))
    ∧ c1st2.Nsa 0 0 = some 1
    ∧ c1st2.Ns 0 = some 1
    ∧ countsOf c1st2 0 = [1, 0, 0, 0, 0, 0]
    ∧ getActionProb (c1cfg C) (c1oracle sq pw ch) 2 0 0 initTree
        = some ([1, 0, 0, 0, 0, 0], c1st2) := by
  have hch0 : ch [0] = 0 := by
    have := hch [0] (by simp)
    simpa using this
  refine ⟨c1_sim1 C sq pw ch, rfl, rfl, fun a => rfl, fun a => rfl, ?_,
    c1_selectAct C sq pw ch, rfl, c1_sim2 C sq pw ch, rfl, rfl, rfl, c1_counts,
    c1_getActionProb C sq pw ch hch0⟩
  intro a b2 ha hb2
  rw [c1_uVal C sq pw ch a ha, c1_uVal C sq pw ch b2 hb2]

/-- C1 witness: the scenario at the concrete instantiation `C = 1`, the zero
square-root stub and the head choice. -/
theorem C1_two_sim_scenario_witness :
    headChoice [0] = 0
    ∧ getActionProb c1cfgC c1oC 2 0 0 initTree = some ([1, 0, 0, 0, 0, 0], c1st2) := by
  have h := C1_two_sim_scenario 1 zeroSqrt zeroPow headChoice headChoice_mem
  exact ⟨rfl, h.2.2.2.2.2.2.2.2.2.2.2.2.2⟩

/-- C2: for an expanded, non-terminal state with its prior set, `search`
selects via the UCB formula — `U(a) = Qsa[s,a] + C * Ps[s][a] * sqrt(Ns[s]) /
(1 + Nsa[s,a])` when the edge exists and `U(a) = C * Ps[s][a] *
sqrt(Ns[s] + 1e-8)` otherwise — and ties are broken by a strict greater-than
scan in ascending order, so the first action attaining the running maximum
wins and is the action `search` steps on. -/
theorem C2_ucb_selection {S : Type} [DecidableEq S] (cfg : Cfg) (o : Oracle S)
    (st : MCTS S) (s : S) (e : Bool) (fuel : Nat) (v : ℚ) (st₂ : MCTS S)
    (hE : st.Es s = some false) (hP : (st.Ps s).isSome)
    (hrec : search cfg o fuel (o.step s (selectAct cfg o st s)).1
        (o.step s (selectAct cfg o st s)).2 st = some (v, st₂)) :
    (∀ a : Nat, a < action_dim → uVal cfg o st s a = specU cfg o st s a)
    ∧ (∃ b₀ : Nat, selectAct cfg o st s = (b₀ : Int) ∧ b₀ < action_dim
        ∧ (∀ j, j < action_dim → uVal cfg o st s j ≤ uVal cfg o st s b₀)
        ∧ (∀ j, j < b₀ → uVal cfg o st s j < uVal cfg o st s b₀))
    ∧ search cfg o (fuel + 1) s e st = some (-v, applyBackup st₂ s (selectAct cfg o st s) v) := by
  have hre : recordEs st s e = st := recordEs_of_some st s e false hE
  refine ⟨?_, ?_, ?_⟩
  · intro a _
    rcases hQ : st.Qsa s (a : Int) with _ | q
    · simp [uVal, specU, hQ]
    · simp [uVal, specU, hQ]
  · obtain ⟨b, hb, hfw⟩ := selectAct_fw cfg o st s
    exact ⟨b, hb, hfw.1, hfw.2.1, hfw.2.2⟩
  · rw [search_succ, searchStep_expanded cfg o _ s e st (by rw [hre]; exact hE) hP, hre, hrec]

/-- C2 witness: the expanded root of the two-simulation scenario. -/
theorem C2_ucb_selection_witness :
    c1st1.Es (0 : Nat) = some false
    ∧ (c1st1.Ps (0 : Nat)).isSome
    ∧ search c1cfgC c1oC 2 0 false c1st1
        = some (-(-(1 / 2)), applyBackup c1inner 0 (selectAct c1cfgC c1oC c1st1 0) (-(1 / 2))) := by
  have hsel : selectAct c1cfgC c1oC c1st1 0 = 0 := c1_selectAct 1 zeroSqrt zeroPow headChoice
  have hrec : search c1cfgC c1oC 1 (c1oC.step 0 (selectAct c1cfgC c1oC c1st1 0)).1
      (c1oC.step 0 (selectAct c1cfgC c1oC c1st1 0)).2 c1st1 = some (-(1 / 2), c1inner) := by
    rw [hsel]
    rfl
  exact ⟨rfl, rfl,
    (C2_ucb_selection c1cfgC c1oC c1st1 0 false 1 (-(1 / 2)) c1inner rfl rfl hrec).2.2⟩

/-- C3: after the recursive call on the selected action returns `v`, `search`
updates the edge as the running mean `(Nsa * Qsa + v) / (Nsa + 1)` with `Nsa`
incremented when the edge exists, or creates it with `Qsa = v`, `Nsa = 1`
otherwise, increments `Ns[s]` by one, and returns `-v`. -/
theorem C3_backup {S : Type} [DecidableEq S] (cfg : Cfg) (o : Oracle S)
    (st : MCTS S) (s : S) (e : Bool) (fuel : Nat) (v : ℚ) (st₂ : MCTS S)
    (hE : st.Es s = some false) (hP : (st.Ps s).isSome)
    (hrec : search cfg o fuel (o.step s (selectAct cfg o st s)).1
        (o.step s (selectAct cfg o st s)).2 st = some (v, st₂)) :
    search cfg o (fuel + 1) s e st = some (-v, applyBackup st₂ s (selectAct cfg o st s) v)
    ∧ (∀ q : ℚ, st₂.Qsa s (selectAct cfg o st s) = some q →
        (applyBackup st₂ s (selectAct cfg o st s) v).Qsa s (selectAct cfg o st s)
          = some (((((st₂.Nsa s (selectAct cfg o st s)).getD 0 : ℕ) : ℚ) * q + v)
              / ((((st₂.Nsa s (selectAct cfg o st s)).getD 0 : ℕ) : ℚ) + 1))
        ∧ (applyBackup st₂ s (selectAct cfg o st s) v).Nsa s (selectAct cfg o st s)
          = some ((st₂.Nsa s (selectAct cfg o st s)).getD 0 + 1))
    ∧ (st₂.Qsa s (selectAct cfg o st s) = none →
        (applyBackup st₂ s (selectAct cfg o st s) v).Qsa s (selectAct cfg o st s) = some v
        ∧ (applyBackup st₂ s (selectAct cfg o st s) v).Nsa s (selectAct cfg o st s) = some 1)
    ∧ (applyBackup st₂ s (selectAct cfg o st s) v).Ns s = some ((st₂.Ns s).getD 0 + 1) := by
  have hre : recordEs st s e = st := recordEs_of_some st s e false hE
  refine ⟨?_, ?_, ?_, ?_⟩
  · rw [search_succ, searchStep_expanded cfg o _ s e st (by rw [hre]; exact hE) hP, hre, hrec]
  · intro q hq
    exact ⟨applyBackup_Qsa_self_of_some st₂ s _ v q hq,
      applyBackup_Nsa_self_of_some st₂ s _ v q hq⟩
  · intro hq
    exact ⟨applyBackup_Qsa_self_of_none st₂ s _ v hq,
      applyBackup_Nsa_self_of_none st₂ s _ v hq⟩
  · exact applyBackup_Ns_self st₂ s _ v

/-- C3 witness: backup of the value `-0.5` along the root edge `(0, 0)` of the
two-simulation scenario, a fresh edge. -/
theorem C3_backup_witness :
    c1st1.Es (0 : Nat) = some false
    ∧ search c1cfgC c1oC 2 0 false c1st1
        = some (-(-(1 / 2)), applyBackup c1inner 0 (selectAct c1cfgC c1oC c1st1 0) (-(1 / 2)))
    ∧ (applyBackup c1inner 0 (selectAct c1cfgC c1oC c1st1 0) (-(1 / 2))).Qsa 0
        (selectAct c1cfgC c1oC c1st1 0) = some (-(1 / 2))
    ∧ (applyBackup c1inner 0 (selectAct c1cfgC c1oC c1st1 0) (-(1 / 2))).Ns 0
        = some ((c1inner.Ns 0).getD 0 + 1) := by
  have hsel : selectAct c1cfgC c1oC c1st1 0 = 0 := c1_selectAct 1 zeroSqrt zeroPow headChoice
  have hrec : search c1cfgC c1oC 1 (c1oC.step 0 (selectAct c1cfgC c1oC c1st1 0)).1
      (c1oC.step 0 (selectAct c1cfgC c1oC c1st1 0)).2 c1st1 = some (-(1 / 2), c1inner) := by
    rw [hsel]
    rfl
  have hQn : c1inner.Qsa 0 (selectAct c1cfgC c1oC c1st1 0) = none := by
    rw [hsel]
    rfl
  have h := C3_backup c1cfgC c1oC c1st1 0 false 1 (-(1 / 2)) c1inner rfl rfl hrec
  exact ⟨rfl, h.1, (h.2.2.1 hQn).1, h.2.2.2⟩

/-- C4: when `search` reaches a state whose prior is unset (and which is not
terminal), it queries the estimator, stores the returned prior as `Ps[s]`,
initializes `Ns[s] = 0`, and returns the negation of the returned value
without creating any edge or recursing (the result does not depend on the
remaining fuel); and on every later visit `Ps[s]` is never overwritten, so the
estimator — queried exactly when the prior is unset — is queried exactly once
per state. -/
theorem C4_leaf_expansion {S : Type} [DecidableEq S] (cfg : Cfg) (o : Oracle S)
    (st : MCTS S) (b : S) (e : Bool) (fuel : Nat)
    (hP : st.Ps b = none)
    (hE : st.Es b = some false ∨ (st.Es b = none ∧ e = false)) :
    search cfg o (fuel + 1) b e st = some (-(o.predict b).1, expandLeaf o (recordEs st b e) b)
    ∧ (expandLeaf o (recordEs st b e) b).Ps b = some (o.predict b).2
    ∧ (expandLeaf o (recordEs st b e) b).Ns b = some 0
    ∧ (expandLeaf o (recordEs st b e) b).Qsa = st.Qsa
    ∧ (expandLeaf o (recordEs st b e) b).Nsa = st.Nsa
    ∧ (∀ x : S, x ≠ b → (expandLeaf o (recordEs st b e) b).Ps x = st.Ps x)
    ∧ search cfg o (fuel + 1) b e st = search cfg o 1 b e st
    ∧ (∀ (st₀ : MCTS S) (p : List ℚ) (fuel' : Nat) (b' : S) (e' : Bool) (v : ℚ) (st₁ : MCTS S),
        st₀.Ps b = some p → search cfg o fuel' b' e' st₀ = some (v, st₁) →
        st₁.Ps b = some p) := by
  have hES : (recordEs st b e).Es b = some false := by
    rcases hE with h | ⟨h1, h2⟩
    · rw [recordEs_of_some st b e false h]
      exact h
    · subst h2
      exact recordEs_Es_self st b false h1
  have hrun : ∀ f : Nat, search cfg o (f + 1) b e st
      = some (-(o.predict b).1, expandLeaf o (recordEs st b e) b) := fun f => by
    rw [search_succ, searchStep_leaf cfg o _ b e st hES hP]
  refine ⟨hrun fuel, expandLeaf_Ps_self o _ b, expandLeaf_Ns_self o _ b, ?_, ?_, ?_,
    (hrun fuel).trans (hrun 0).symm, ?_⟩
  · rw [expandLeaf_Qsa, recordEs_Qsa]
  · rw [expandLeaf_Nsa, recordEs_Nsa]
  · intro x hx
    rw [expandLeaf_Ps_ne o _ b x hx, recordEs_Ps]
  · intro st₀ p fuel' b' e' v st₁ hp hs
    exact search_Ps_mono cfg o fuel' b' e' st₀ v st₁ hs b p hp

/-- C4 witness: first expansion of the root in the two-simulation scenario. -/
theorem C4_leaf_expansion_witness :
    initTree.Ps (0 : Nat) = none
    ∧ search c1cfgC c1oC 1 0 false initTree
        = some (-(1 / 2), expandLeaf c1oC (recordEs initTree 0 false) 0)
    ∧ (expandLeaf c1oC (recordEs initTree 0 false) 0).Ps 0 = some (List.replicate 6 (1 / 6)) := by
  have h := C4_leaf_expansion c1cfgC c1oC initTree 0 false 0 rfl (Or.inr ⟨rfl, rfl⟩)
  exact ⟨rfl, h.1, h.2.1⟩

/-- C5: the terminal flag of a state is recorded from the caller-supplied
`game_ended` the first time the state is seen and never updated afterwards;
whenever the cached flag is true, `search` returns exactly the value `1`
immediately with the tree unchanged, on the first and on every subsequent
visit, regardless of the flag passed on later calls. -/
theorem C5_terminal_handling {S : Type} [DecidableEq S] (cfg : Cfg) (o : Oracle S)
    (st : MCTS S) (b x : S) (e e' : Bool) (fuel fuel' : Nat) (bb : Bool)
    (v : ℚ) (st' : MCTS S) :
    (st.Es b = some true → search cfg o (fuel + 1) b e st = some (1, st))
    ∧ (st.Es b = none → search cfg o (fuel + 1) b true st = some (1, recordEs st b true)
        ∧ (recordEs st b true).Es b = some true)
    ∧ (st.Es x = some bb → search cfg o fuel' b e' st = some (v, st') → st'.Es x = some bb)
    ∧ (st.Es b = none → search cfg o (fuel + 1) b e st = some (v, st') →
        st'.Es b = some e) := by
  refine ⟨?_, ?_, ?_, ?_⟩
  · intro h
    have hre : recordEs st b e = st := recordEs_of_some st b e true h
    rw [search_succ, searchStep_terminal cfg o _ b e st (by rw [hre]; exact h), hre]
  · intro h
    have h1 := recordEs_Es_self st b true h
    rw [search_succ, searchStep_terminal cfg o _ b true st h1]
    exact ⟨rfl, h1⟩
  · intro h hs
    exact search_Es_mono cfg o fuel' b e' st v st' hs x bb h
  · intro h hs
    exact search_records_Es cfg o fuel b e st v st' h hs

/-- C5 witness: a state cached terminal returns `1` with the tree unchanged,
even when the caller now passes `game_ended = false`. -/
theorem C5_terminal_handling_witness :
    termSt.Es (0 : Nat) = some true
    ∧ search c1cfgC c1oC 1 0 false termSt = some (1, termSt) := by
  have h := C5_terminal_handling c1cfgC c1oC termSt 0 0 false false 0 0 false 1 termSt
  exact ⟨rfl, h.1 rfl⟩

/-- Concrete two-pass run used by the invariant witnesses. -/
theorem c1_runSearches :
    runSearches c1cfgC c1oC [(2, 0, false), (2, 0, false)] initTree = some c1st2 := by
  have e1 : runSearches c1cfgC c1oC [(2, 0, false), (2, 0, false)] initTree
      = match search c1cfgC c1oC 2 0 false initTree with
        | none => none
        | some (_, st') => runSearches c1cfgC c1oC [(2, 0, false)] st' := rfl
  have e2 : runSearches c1cfgC c1oC [(2, 0, false)] c1st1
      = match search c1cfgC c1oC 2 0 false c1st1 with
        | none => none
        | some (_, st') => runSearches c1cfgC c1oC [] st' := rfl
  have hs1 : search c1cfgC c1oC 2 0 false initTree = some (-(1 / 2), c1st1) :=
    c1_sim1 1 zeroSqrt zeroPow headChoice
  have hs2 : search c1cfgC c1oC 2 0 false c1st1 = some (1 / 2, c1st2) :=
    c1_sim2 1 zeroSqrt zeroPow headChoice
  rw [e1, hs1]
  show runSearches c1cfgC c1oC [(2, 0, false)] c1st1 = some c1st2
  rw [e2, hs2]
  rfl

/-- C6: after any sequence of completed `search` calls from a fresh instance,
for every expanded non-terminal state with at least one action taken, `Ns[s]`
equals the sum over the actions of `Nsa[s,a]`, absent edges counting as `0`. -/
theorem C6_count_conservation {S : Type} [DecidableEq S] (cfg : Cfg) (o : Oracle S)
    (ps : List (Nat × S × Bool)) (st : MCTS S) (s : S) (a₀ : Int)
    (hrun : runSearches cfg o ps initTree = some st)
    (hexp : (st.Ps s).isSome)
    (hterm : st.Es s ≠ some true)
    (hact : (st.Nsa s a₀).isSome) :
    st.Ns s = some (∑ a in Finset.range action_dim, (st.Nsa s (a : Int)).getD 0)
    ∧ (∀ a : Int, ¬(0 ≤ a ∧ a < (action_dim : Int)) → st.Nsa s a = none) := by
  have hInv := runSearches_TreeInv cfg o ps initTree st TreeInv_initTree hrun
  obtain ⟨h1, h2, h3, h4, h5⟩ := hInv s
  constructor
  · obtain ⟨n, hn⟩ := Option.isSome_iff_exists.1 (h3 hexp)
    rw [hn]
    rw [hn] at h1
    simpa using h1
  · intro a ha
    by_contra hc
    exact ha (h4 a hc)

/-- C6 witness: the two-pass scenario run, at the root. -/
theorem C6_count_conservation_witness :
    runSearches c1cfgC c1oC [(2, 0, false), (2, 0, false)] initTree = some c1st2
    ∧ (c1st2.Ps (0 : Nat)).isSome
    ∧ (c1st2.Nsa (0 : Nat) (0 : Int)).isSome
    ∧ c1st2.Ns (0 : Nat)
        = some (∑ a in Finset.range action_dim, (c1st2.Nsa (0 : Nat) (a : Int)).getD 0) := by
  have hterm : c1st2.Es (0 : Nat) ≠ some true := by
    rw [show c1st2.Es (0 : Nat) = some false from rfl]
    simp
  have h := C6_count_conservation c1cfgC c1oC [(2, 0, false), (2, 0, false)] c1st2 0 0
    c1_runSearches rfl hterm rfl
  exact ⟨c1_runSearches, rfl, rfl, h.1⟩

/-- C7: with an estimator whose value outputs lie in `[-1, 1]` (the terminal
return being the fixed value `1`), after any sequence of completed `search`
calls from a fresh instance every stored `Qsa[s,a]` lies in `[-1, 1]`. -/
theorem C7_value_bound {S : Type} [DecidableEq S] (cfg : Cfg) (o : Oracle S)
    (ps : List (Nat × S × Bool)) (st : MCTS S) (s : S) (a : Int) (q : ℚ)
    (hm : ∀ x : S, -1 ≤ (o.predict x).1 ∧ (o.predict x).1 ≤ 1)
    (hrun : runSearches cfg o ps initTree = some st)
    (hq : st.Qsa s a = some q) :
    -1 ≤ q ∧ q ≤ 1 :=
  runSearches_bounded cfg o hm ps initTree st QsaBounded_initTree hrun s a q hq

/-- C7 witness: the stored value `-0.5` at the root edge of the two-pass run
lies in `[-1, 1]`. -/
theorem C7_value_bound_witness :
    c1st2.Qsa (0 : Nat) (0 : Int) = some (-(1 / 2))
    ∧ -1 ≤ (-(1 / 2) : ℚ) ∧ (-(1 / 2) : ℚ) ≤ 1 := by
  refine ⟨rfl, ?_⟩
  exact C7_value_bound c1cfgC c1oC [(2, 0, false), (2, 0, false)] c1st2 0 0 (-(1 / 2))
    (fun x => ⟨by norm_num [c1oC, c1oracle], by norm_num [c1oC, c1oracle]⟩)
    c1_runSearches rfl

/-- C8 counterexample: the claim asserts a defined fallback for all-zero
counts under nonzero temperature, but at temperature `1` with zero
simulations the normalization sum is `0` and `getActionProb` performs the
unguarded division — a `ZeroDivisionError` in the source, `none` in the
embedding — so no defined result is produced. -/
theorem C8_degenerate_counterexample : getActionProb c8cfg c8oracle 1 0 1 initTree = none := by
  apply getActionProb_tempNZ_allZero c8cfg c8oracle 1 0 1 initTree initTree (by norm_num) rfl
  · intro x hx
    have hc : countsOf initTree (0 : Nat) = [0, 0, 0, 0, 0, 0] := rfl
    rw [hc] at hx
    simpa using hx
  · rfl

/-- C8 amended: when the temperature is nonzero, the simulation loop completes,
every root edge is absent (all counts `0`), and the float power maps `0` to
`0` (as `0 ** (1/temp)` does for positive exponents), `getActionProb` divides
by the zero sum and produces no result: the zero-sum case is not handled by a
fallback. -/
theorem C8_degenerate_division {S : Type} [DecidableEq S] (cfg : Cfg) (o : Oracle S)
    (fuel : Nat) (b : S) (temp : ℚ) (st st' : MCTS S)
    (ht : temp ≠ 0)
    (hsim : simLoop cfg o fuel b cfg.numMCTSSim st = some st')
    (hzero : ∀ a : Int, st'.Nsa b a = none)
    (hpow : o.powFn 0 (1 / temp) = 0) :
    getActionProb cfg o fuel b temp st = none := by
  apply getActionProb_tempNZ_allZero cfg o fuel b temp st st' ht hsim _ hpow
  intro x hx
  unfold countsOf at hx
  rcases List.mem_map.1 hx with ⟨a, _, rfl⟩
  rw [hzero]
  rfl

/-- C8 witness: the amended statement at the concrete zero-simulation run with
temperature `1`. -/
theorem C8_degenerate_division_witness :
    (1 : ℚ) ≠ 0 ∧ getActionProb c8cfg c8oracle 1 0 1 initTree = none := by
  refine ⟨by norm_num, ?_⟩
  exact C8_degenerate_division c8cfg c8oracle 1 0 1 initTree initTree (by norm_num) rfl
    (fun a => rfl) rfl

/-- C9 counterexample: an environment satisfying the section-6 contract (a
self-loop that never reports termination, with a contract-conforming
estimator) reaches, after one completed call, a tree from which `search`
exhausts every fuel bound: the recursion through selected actions revisits the
already-expanded state forever, so not every call to `search` terminates. -/
theorem C9_divergence_counterexample :
    search loopCfg loopOracle 1 0 false initTree = some (0, loopSt)
    ∧ searchDiverges loopCfg loopOracle 0 false loopSt :=
  ⟨loop_first, loop_diverges⟩

/-- C9 amended: a call to `search` returns after reaching an unexpanded leaf
or a terminal state — in particular it terminates whenever the state it is
called on is unexpanded, cached terminal, or flagged terminal by the caller —
but termination is not guaranteed for every contract-satisfying environment. -/
theorem C9_terminates_at_leaf_or_terminal {S : Type} [DecidableEq S] (cfg : Cfg)
    (o : Oracle S) (fuel : Nat) (b : S) (e : Bool) (st : MCTS S)
    (h : st.Ps b = none ∨ st.Es b = some true ∨ (st.Es b = none ∧ e = true)) :
    (search cfg o (fuel + 1) b e st).isSome :=
  search_term_at_leaf_or_terminal cfg o fuel b e st h

/-- C9 witness: the amended statement at the unexpanded root of a fresh tree. -/
theorem C9_terminates_witness :
    initTree.Ps (0 : Nat) = none ∧ (search c1cfgC c1oC 1 0 false initTree).isSome :=
  ⟨rfl, C9_terminates_at_leaf_or_terminal c1cfgC c1oC 0 0 false initTree (Or.inl rfl)⟩

/-- C10: in the selection loop, whenever `Ps[s]` is set with nonnegative
entries (finiteness is inherent to the rational embedding), the computed best
action lies in `[0, action_dim)`; in particular the sentinel `-1` assigned to
`best_act` is never the selected action passed to `game.step`. -/
theorem C10_selection_safety {S : Type} [DecidableEq S] (cfg : Cfg) (o : Oracle S)
    (st : MCTS S) (s : S)
    (hP : (st.Ps s).isSome)
    (hpr : ∀ q ∈ (st.Ps s).getD [], 0 ≤ q) :
    selectAct cfg o st s ≠ -1
    ∧ 0 ≤ selectAct cfg o st s ∧ selectAct cfg o st s < (action_dim : Int) := by
  obtain ⟨b, hb, hfw⟩ := selectAct_fw cfg o st s
  have hlt : b < action_dim := hfw.1
  refine ⟨?_, ?_, ?_⟩
  · rw [hb]
    omega
  · rw [hb]
    exact Int.ofNat_nonneg b
  · rw [hb]
    exact_mod_cast hlt

/-- C10 witness: the expanded root of the two-simulation scenario. -/
theorem C10_selection_safety_witness :
    (c1st1.Ps (0 : Nat)).isSome
    ∧ selectAct c1cfgC c1oC c1st1 0 ≠ -1
    ∧ 0 ≤ selectAct c1cfgC c1oC c1st1 0
    ∧ selectAct c1cfgC c1oC c1st1 0 < (action_dim : Int) := by
  have hpr : ∀ q ∈ (c1st1.Ps (0 : Nat)).getD [], 0 ≤ q := by
    intro q hq
    have : (c1st1.Ps (0 : Nat)).getD [] = List.replicate 6 (1 / 6) := rfl
    rw [this] at hq
    rw [List.eq_of_mem_replicate hq]
    norm_num
  have h := C10_selection_safety c1cfgC c1oC c1st1 0 rfl hpr
  exact ⟨rfl, h.1, h.2.1, h.2.2⟩
